import Mathlib

/-!
# Verification of the Pax Dei crafting bot core (`craft.py`)

Shallow embedding of the recursive recipe-resolution and quantity-aggregation
engine of `craft.py`:

* `get_fail_multiplier` (lines 115-123) — the failure-tier multiplier.
* `compute_raw` (lines 127-152) — the recursive raw-requirement aggregator.
* `build_breakdown` (lines 156-187) — the hierarchical markdown report builder.
* `generate_breakdown` (lines 191-230) — the assembler producing the full
  document and the 1900-character bounded summary.

Modelling conventions:

* Python `float` arithmetic is modelled by exact rationals `ℚ`; the failure
  multipliers are the exact values `1/(1-p)` that the claims and the spec use.
* Python `dict`s (insertion ordered, unique keys) are modelled by association
  lists `List (String × _)`; `dict.get(k, d)` is `dictGetD`, `d[k] = v` is
  `dictSet` (update in place if present, else append at the end), and the
  accumulation loop of `compute_raw` (lines 150-151) is `mergeRaw`.
* The external collaborators `find_recipe_url` (URL search), `scrape_recipe`
  (fetch + parse) and `get_max_stack` are the fields of a `World`; any
  lookup/parse failure is already `none`, exactly as the Python functions
  return `None` on failure.  Python's `if not url:` treats the empty string
  like `None`; `lookupRecipe` reproduces that truthiness check.
* The Python recursion is unbounded (no cycle guard); the embedding uses an
  explicit fuel parameter.  One unit of fuel is consumed each time a node
  with a recipe is expanded; `none` means the fuel ran out, i.e. the Python
  program would still be recursing at that depth.
-/

set_option maxRecDepth 40000

/-- One ingredient entry of a recipe, as built by `scrape_recipe`
(lines 76-80 of `craft.py`): quantity per craft, item slug, and page link. -/
structure IngredientInfo where
  qty_per : ℕ
  slug : String
  link : String
  deriving DecidableEq

/-- A scraped recipe record (lines 88-95 of `craft.py`).  `ingredients` keeps
the page (dict-insertion) order; keys are unique because it is a Python dict
keyed by ingredient display name. -/
structure Recipe where
  name : String
  skill : String
  diff : ℤ
  ingredients : List (String × IngredientInfo)
  yield_per : ℕ
  url : String
  deriving DecidableEq

/-- The external collaborators of the core: `find_recipe_url` (DuckDuckGo
search, `None` on failure), `scrape_recipe` (fetch + parse, `None` on any
failure), and `get_max_stack` (always returns an integer, 50 on failure). -/
structure World where
  find_url : String → Option String
  scrape : String → Option Recipe
  maxStack : String → ℕ

/-- Composite recipe lookup as performed at lines 134-140 and 157-162 of
`craft.py`: resolve the URL (Python truthiness: `None` and `""` are both
"no URL"), then scrape it; either absence means "no recipe, treat as leaf". -/
def lookupRecipe (w : World) (name : String) : Option Recipe :=
  match w.find_url name with
  | none => none
  | some url => if url = "" then none else w.scrape url

/-- A raw-requirement mapping: Python dict from base-resource slug to
accumulated quantity, in insertion order. -/
abbrev RawReq := List (String × ℚ)

/-- Python `d.get(k, default)` on an association list. -/
def dictGetD {α : Type} : List (String × α) → String → α → α
  | [], _, d => d
  | (k', v) :: rest, k, d => if k' = k then v else dictGetD rest k d

/-- Python `d[k] = v`: replace the value in place if the key is present,
otherwise append the new key at the end (dict insertion order). -/
def dictSet {α : Type} : List (String × α) → String → α → List (String × α)
  | [], k, v => [(k, v)]
  | (k', v') :: rest, k, v =>
    if k' = k then (k, v) :: rest else (k', v') :: dictSet rest k v

/-- The key list of an association list (Python `list(d)`). -/
def keys {α : Type} (m : List (String × α)) : List String := m.map Prod.fst

/-- The accumulation loop at lines 150-151 of `craft.py`:
`for r_slug, q in sub_raw.items(): raw[r_slug] = raw.get(r_slug, 0) + q`. -/
def mergeRaw : RawReq → RawReq → RawReq
  | acc, [] => acc
  | acc, (k, v) :: rest => mergeRaw (dictSet acc k (dictGetD acc k 0 + v)) rest

/-- Lines 115-123 of `craft.py`: the failure multiplier.  `delta` is
difficulty minus effective level; the four tiers carry fail probabilities
8%, 15%, 30%, 50%, hence multipliers `1/(1-p)`. -/
def get_fail_multiplier (diff adjusted_level : ℤ) : ℚ :=
  let delta := diff - adjusted_level
  if delta ≤ 0 then 1 / (1 - 0.08)
  else if delta ≤ 3 then 1 / (1 - 0.15)
  else if delta ≤ 6 then 1 / (1 - 0.30)
  else 1 / (1 - 0.50)

/-- The ingredient loop of `compute_raw` (lines 146-151 of `craft.py`):
recursively expand every ingredient at `quantityPerCraft * crafts` units and
merge each result into the accumulator dict (initially `{}`).  `recurse` is
the recursive call with the fuel already decremented; `none` propagates fuel
exhaustion. -/
def sumIngredients (recurse : String → String → ℚ → Option RawReq) (crafts : ℚ) :
    List (String × IngredientInfo) → RawReq → Option RawReq
  | [], raw => some raw
  | (sub_name, info) :: rest, raw =>
    match recurse sub_name info.slug ((info.qty_per : ℚ) * crafts) with
    | none => none
    | some sub_raw => sumIngredients recurse crafts rest (mergeRaw raw sub_raw)

/-- Lines 127-152 of `craft.py` (`compute_raw`): if the item has no recipe it
is a base resource and the result is the singleton `{slug: needed_qty}`;
otherwise compute the (fractional) number of crafts
`ceil(needed_qty / yield_per) * mult` — `mult` is the failure multiplier at
effective level `level + 1` when `apply_fail` is set, else `1.0` — and sum the
recursively computed requirements of all ingredients. -/
def compute_raw (w : World) : ℕ → String → String → ℚ → ℤ → Bool → Option RawReq
  | 0, name, slug, needed_qty, _level, _apply_fail =>
    match lookupRecipe w name with
    | none => some [(slug, needed_qty)]
    | some _ => none
  | fuel + 1, name, slug, needed_qty, level, apply_fail =>
    match lookupRecipe w name with
    | none => some [(slug, needed_qty)]
    | some recipe =>
      let adj_lvl : ℤ := if apply_fail then level + 1 else 999
      let mult : ℚ := if apply_fail then get_fail_multiplier recipe.diff adj_lvl else 1
      let crafts : ℚ := (⌈needed_qty / (recipe.yield_per : ℚ)⌉ : ℚ) * mult
      sumIngredients (fun n s q => compute_raw w fuel n s q level apply_fail) crafts
        recipe.ingredients []

/-! ## String helpers

Python string primitives modelled on `List Char` (Python slices and `len`
count code points, exactly as Lean `Char` lists do).  All are structurally
recursive so that concrete runs reduce inside the kernel. -/

/-- Python `len(s)`. -/
def pyLen (s : String) : ℕ := s.data.length

/-- Python `s[:n]`. -/
def pyTake (s : String) (n : ℕ) : String := ⟨s.data.take n⟩

/-- Auxiliary for `pyTitle`: `prev` records whether the previous character
was alphabetic. -/
def pyTitleAux : Bool → List Char → List Char
  | _, [] => []
  | prev, c :: rest =>
    if c.isAlpha then (if prev then c.toLower else c.toUpper) :: pyTitleAux true rest
    else c :: pyTitleAux false rest

/-- Python `s.title()` (ASCII): uppercase every letter that follows a
non-letter, lowercase the other letters. -/
def pyTitle (s : String) : String := ⟨pyTitleAux false s.data⟩

/-- Python `s.replace(c₁, c₂)` for single-character patterns. -/
def replaceChar (c₁ c₂ : Char) (s : String) : String :=
  ⟨s.data.map (fun c => if c = c₁ then c₂ else c)⟩

/-- Python `sep.join(parts)`. -/
def joinSep (sep : String) : List String → String
  | [] => ""
  | [x] => x
  | x :: y :: rest => x ++ sep ++ joinSep sep (y :: rest)

/-- Concatenation of a list of strings (the `+=` accumulation of a loop). -/
def concatAll : List String → String
  | [] => ""
  | s :: rest => s ++ concatAll rest

/-- Does `pat` occur at the start of `s`? -/
def startsWithL : List Char → List Char → Bool
  | [], _ => true
  | _ :: _, [] => false
  | c :: cs, d :: ds => c == d && startsWithL cs ds

/-- Does `pat` occur anywhere in `s`? -/
def hasSubL (pat : List Char) : List Char → Bool
  | [] => pat.isEmpty
  | d :: rest => startsWithL pat (d :: rest) || hasSubL pat rest

/-- Python `pat in s` (substring containment). -/
def strContains (s pat : String) : Bool := hasSubL pat.data s.data

/-- Insert into a sorted list (auxiliary for `insertionSort`). -/
def insertSorted {α : Type} (le : α → α → Bool) (x : α) : List α → List α
  | [] => [x]
  | y :: ys => if le x y then x :: y :: ys else y :: insertSorted le x ys

/-- Python `sorted(l, key=...)`, as an insertion sort.  The keys sorted in
`craft.py` are Python-dict keys, hence pairwise distinct, so any comparison
sort produces the same list. -/
def insertionSort {α : Type} (le : α → α → Bool) : List α → List α
  | [] => []
  | x :: xs => insertSorted le x (insertionSort le xs)

/-- First-occurrence deduplication (auxiliary for `dedupKeys`). -/
def dedupAux (seen : List String) : List String → List String
  | [] => []
  | k :: rest =>
    if seen.contains k then dedupAux seen rest
    else k :: dedupAux (k :: seen) rest

/-- The slug set `set(orig) | set(adj)` of line 196 of `craft.py`, as a
duplicate-free list.  Python set iteration order is arbitrary; the set is
only ever read by key or sorted before iteration, so any enumeration order
is faithful. -/
def dedupKeys (l : List String) : List String := dedupAux [] l

/-- Python `int(x)` on a float: truncation toward zero. -/
def truncQ (x : ℚ) : ℤ := if 0 ≤ x then ⌊x⌋ else ⌈x⌉

/-! ## Breakdown builder (lines 156-187 of `craft.py`) -/

/-- The ingredient loop of `build_breakdown` (lines 175-185): for each
ingredient (sorted by display name), append its table row, recurse into its
own breakdown, and append a notes separator.  The stack-size cache dict is
threaded through explicitly: `dict.get` (line 177) reads it and never writes,
and the same object is passed to every recursive call.  `recurse` is the
recursive call with the fuel already decremented. -/
def breakdownChildren (w : World)
    (recurse : String → ℤ → List (String × ℕ) → Option (String × List (String × ℕ)))
    (crafts : ℤ) :
    List (String × IngredientInfo) → String → String → List (String × ℕ) →
      Option (String × String × List (String × ℕ))
  | [], bd, table, cache => some (bd, table, cache)
  | (sub_name, info) :: rest, bd, table, cache =>
    let sub_needed : ℤ := (info.qty_per : ℤ) * crafts
    let max_st : ℕ := dictGetD cache info.slug (w.maxStack info.slug)
    let slots : ℤ := ⌈(sub_needed : ℚ) / (max_st : ℚ)⌉
    let method : String :=
      match w.find_url sub_name with
      | none => "gather"
      | some u => if u = "" then "gather" else "craft"
    let row : String :=
      "| [" ++ sub_name ++ "](" ++ info.link ++ ") | `" ++ toString sub_needed ++
      "` | " ++ toString max_st ++ " | `" ++ toString slots ++ "` | " ++ method ++
      " | [" ++ sub_name ++ "](" ++ info.link ++ ") |\n"
    match recurse sub_name sub_needed cache with
    | none => none
    | some (sub_bd, cache') =>
      breakdownChildren w recurse crafts rest
        (bd ++ sub_bd ++ "\n**Subtotal/Bonus Notes**\n\n") (table ++ row) cache'

/-- Lines 156-187 of `craft.py` (`build_breakdown`): a leaf (no recipe)
contributes the empty string; otherwise emit the header block, then per
ingredient — sorted by name — the recursive sub-breakdown and the table row,
then the node's ingredient table.  `needed_qty` is `ℤ`: every call site
passes an integer (`quantity : int` at the top, and recursively
`qty_per * crafts` with `crafts = ceil(...)`), so Python's `int(needed_qty)`
and `f"{needed_qty}"` both render it as a plain integer. -/
def build_breakdown (w : World) :
    ℕ → String → ℤ → ℤ → List (String × ℕ) → Option (String × List (String × ℕ))
  | 0, name, _needed_qty, _level, cache =>
    match lookupRecipe w name with
    | none => some ("", cache)
    | some _ => none
  | fuel + 1, name, needed_qty, level, cache =>
    match lookupRecipe w name with
    | none => some ("", cache)
    | some recipe =>
      let crafts : ℤ := ⌈(needed_qty : ℚ) / (recipe.yield_per : ℚ)⌉
      let inputs : String :=
        joinSep ", " (recipe.ingredients.map (fun p => toString p.2.qty_per ++ "x " ++ p.1))
      let header : String :=
        "### 1. [" ++ recipe.name ++ "](" ++ recipe.url ++ ")\n" ++
        "- **Needed**: `" ++ toString needed_qty ++ "`\n" ++
        "- **Batch Craft**: `" ++ inputs ++ " → " ++ toString recipe.yield_per ++
        "x " ++ recipe.name ++ "`\n" ++
        "- **Crafts Required**: `ceil(" ++ toString needed_qty ++ " / " ++
        toString recipe.yield_per ++ ") = " ++ toString crafts ++ "`\n\n"
      let tableHeader : String :=
        "| Raw Resource | Qty | Max Stack | Slots | Method | Link |\n" ++
        "|--------------|-----|-----------|-------|--------|------|\n"
      let sorted_ings := insertionSort (fun a b => decide (a.1 ≤ b.1)) recipe.ingredients
      match breakdownChildren w (fun n q c => build_breakdown w fuel n q level c) crafts
          sorted_ings header tableHeader cache with
      | none => none
      | some (bd, table, cache') =>
        some (bd ++ table ++ "\n**Subtotal/Bonus Notes**\n\n", cache')

/-! ## Assembler (lines 191-230 of `craft.py`) -/

/-- The site base URL (line 19 of `craft.py`). -/
def BASE_URL : String := "https://paxdei.gaming.tools"

/-- Line 196 of `craft.py`: the per-slug stack-size dict built from the
union of the slugs of the two raw mappings. -/
def stacks_for (w : World) (orig adj : RawReq) : List (String × ℕ) :=
  (dedupKeys (keys orig ++ keys adj)).map (fun s => (s, w.maxStack s))

/-- Lines 200-201 of `craft.py`: total slot count of a raw mapping,
`sum(ceil(q / stackMap.get(s, 50)))` over its items. -/
def slots_of (stackMap : List (String × ℕ)) (raw : RawReq) : ℤ :=
  (raw.map (fun p => ⌈p.2 / ((dictGetD stackMap p.1 50 : ℕ) : ℚ)⌉)).sum

/-- Line 202 of `craft.py`: `chests_adj = ceil(slots_adj / 20)`.  This value
is computed by the program but never interpolated into any output. -/
def chests_adj_calc (slots_adj : ℤ) : ℤ := ⌈(slots_adj : ℚ) / 20⌉

/-- Line 212 of `craft.py`: the percentage overhead
`int((slots_adj / slots_orig - 1) * 100) if slots_orig else 0`.
Note Python `int()` truncates toward zero. -/
def pct_calc (slots_orig slots_adj : ℤ) : ℤ :=
  if slots_orig = 0 then 0
  else truncQ (((slots_adj : ℚ) / (slots_orig : ℚ) - 1) * 100)

/-- One row of the final comparison table (lines 206-211 of `craft.py`). -/
def finalRow (stackMap : List (String × ℕ)) (orig adj : RawReq) (slug : String) : String :=
  let qo : ℤ := truncQ (dictGetD orig slug 0)
  let qa : ℤ := truncQ (dictGetD adj slug 0)
  let sa : ℤ := ⌈(qa : ℚ) / ((dictGetD stackMap slug 50 : ℕ) : ℚ)⌉
  let nm : String := pyTitle (replaceChar '_' ' ' slug)
  "| [" ++ nm ++ "](" ++ BASE_URL ++ "/items/" ++ slug ++ ") | `" ++ toString qo ++
  "` | `" ++ toString qa ++ "` | `" ++ toString sa ++ "` |\n"

/-- The final comparison table (lines 204-213 of `craft.py`): header, one row
per slug in sorted order, and the total/percentage footer. -/
def finalTable (stackMap : List (String × ℕ)) (orig adj : RawReq)
    (slots_orig slots_adj : ℤ) : String :=
  "| Raw Resource | Qty (Orig) | Qty (Adj) | Slots (Adj) |\n" ++
  "|-----|------------|-----------|-------------|\n" ++
  concatAll ((insertionSort (fun a b => decide (a ≤ b))
      (dedupKeys (keys orig ++ keys adj))).map (finalRow stackMap orig adj)) ++
  "**Total Adj: " ++ toString slots_adj ++ " slots** (+" ++
  toString (pct_calc slots_orig slots_adj) ++ "%)\n"

/-- The chest figure interpolated at line 223 of `craft.py`:
`~{ceil(slots_orig / 20)} Chests` — computed from the ideal (unadjusted)
slot total `slots_orig`. -/
def mdChests (slots_orig : ℤ) : String :=
  "~" ++ toString (⌈(slots_orig : ℚ) / 20⌉ : ℤ) ++ " Chests"

/-- Everything of the document template (lines 215-223 of `craft.py`) that
precedes the chest figure. -/
def mdHead (item_name : String) (quantity level : ℤ)
    (breakdown final_tbl : String) (slots_orig : ℤ) : String :=
  "**" ++ pyTitle item_name ++ " – Full Recursive Breakdown for " ++
  toString quantity ++ "x (Level " ++ toString level ++ " +1 Blessing)**\n\n" ++
  "## Step-by-Step Batch & Stack Calculation\n" ++ breakdown ++
  "\n\n## Final Gather Totals & Storage Needs\n" ++ final_tbl ++
  "\n\n**Total Raw Slots**: `" ++ toString slots_orig ++ "` → **"

/-- The static footer of the document template (lines 223-228 of
`craft.py`). -/
def mdTail : String :=
  "**\n\n> **Bonus**: Adjusted for failure rates (Very Easy:8%, Easy:15%, " ++
  "Moderate:30%, Hard:50%)  \n> **All math in `code`**  \n" ++
  "> **Verified from paxdei.gaming.tools**\n"

/-- The full markdown document template (lines 215-228 of `craft.py`). -/
def mdDocument (item_name : String) (quantity level : ℤ)
    (breakdown final_tbl : String) (slots_orig : ℤ) : String :=
  mdHead item_name quantity level breakdown final_tbl slots_orig ++
  mdChests slots_orig ++ mdTail

/-- Line 229 of `craft.py`: the bounded chat summary — the breakdown itself,
truncated to its first 1900 characters plus an ellipsis when longer. -/
def chatSummary (breakdown : String) : String :=
  if 1900 < pyLen breakdown then pyTake breakdown 1900 ++ "..." else breakdown

/-- The ideal and adjusted slot totals of a run (lines 193-201 of
`craft.py`), exposed for the storage claims. -/
def breakdown_slots (w : World) (fuel : ℕ) (item_name : String)
    (quantity level : ℤ) : Option (ℤ × ℤ) :=
  match compute_raw w fuel item_name "" (quantity : ℚ) level false,
        compute_raw w fuel item_name "" (quantity : ℚ) level true with
  | some orig, some adj =>
    let stackMap := stacks_for w orig adj
    some (slots_of stackMap orig, slots_of stackMap adj)
  | _, _ => none

/-- The breakdown text of a run (line 198 of `craft.py`), exposed for the
summary claim. -/
def breakdown_text (w : World) (fuel : ℕ) (item_name : String)
    (quantity level : ℤ) : Option String :=
  match compute_raw w fuel item_name "" (quantity : ℚ) level false,
        compute_raw w fuel item_name "" (quantity : ℚ) level true with
  | some orig, some adj =>
    (build_breakdown w fuel item_name quantity level (stacks_for w orig adj)).map Prod.fst
  | _, _ => none

/-- Lines 191-230 of `craft.py` (`generate_breakdown`): run the aggregator
twice (ideal and adjusted), build the stack cache from the union of slugs,
build the breakdown, compute both slot totals, and assemble the full document
and the bounded summary. -/
def generate_breakdown (w : World) (fuel : ℕ) (item_name : String)
    (quantity level : ℤ) : Option (String × String) :=
  match compute_raw w fuel item_name "" (quantity : ℚ) level false,
        compute_raw w fuel item_name "" (quantity : ℚ) level true with
  | some orig, some adj =>
    let stackMap := stacks_for w orig adj
    match build_breakdown w fuel item_name quantity level stackMap with
    | none => none
    | some (breakdown, _cache) =>
      let slots_orig := slots_of stackMap orig
      let slots_adj := slots_of stackMap adj
      let final_tbl := finalTable stackMap orig adj slots_orig slots_adj
      some (mdDocument item_name quantity level breakdown final_tbl slots_orig,
            chatSummary breakdown)
  | _, _ => none

/-! ## Relations used by the algebraic claims -/

/-- The §3 data-model invariants of the spec: every recipe a world can ever
produce has `yieldPerCraft ≥ 1` and `quantityPerCraft ≥ 1` for each
ingredient. -/
def EnvInv (w : World) : Prop :=
  ∀ url r, w.scrape url = some r →
    1 ≤ r.yield_per ∧ ∀ p ∈ r.ingredients, 1 ≤ p.2.qty_per

/-- Two raw mappings agree as mappings: same looked-up value at every slug
and the same key set. -/
def EquivReq (m₁ m₂ : RawReq) : Prop :=
  (∀ k, dictGetD m₁ k 0 = dictGetD m₂ k 0) ∧ (∀ k, k ∈ keys m₁ ↔ k ∈ keys m₂)

/-- `EquivReq` lifted to `Option` (fuel exhaustion must agree as well). -/
def OptEquivReq : Option RawReq → Option RawReq → Prop
  | none, none => True
  | some m₁, some m₂ => EquivReq m₁ m₂
  | _, _ => False

/-- Domination of raw mappings: same key set, and the value at every slug of
the first is bounded by the value in the second. -/
def LeReq (m₁ m₂ : RawReq) : Prop :=
  (∀ k, k ∈ keys m₁ ↔ k ∈ keys m₂) ∧ (∀ k, dictGetD m₁ k 0 ≤ dictGetD m₂ k 0)

/-- Two recipes that differ only in the order of their ingredient list. -/
def RecipePerm (r₁ r₂ : Recipe) : Prop :=
  r₁.name = r₂.name ∧ r₁.skill = r₂.skill ∧ r₁.diff = r₂.diff ∧
  r₁.yield_per = r₂.yield_per ∧ r₁.url = r₂.url ∧
  r₁.ingredients.Perm r₂.ingredients

/-- Two worlds whose recipes agree up to reordering of ingredient lists. -/
def WorldPerm (w₁ w₂ : World) : Prop :=
  w₁.find_url = w₂.find_url ∧
  ∀ url,
    match w₁.scrape url, w₂.scrape url with
    | none, none => True
    | some r₁, some r₂ => RecipePerm r₁ r₂
    | _, _ => False

/-! ## Concrete worlds used by the scenario claims and the witnesses -/

/-- Ingredient A of the §8 end-to-end scenario: 3 per craft, slug `a`. -/
def infoA : IngredientInfo := { qty_per := 3, slug := "a", link := "la" }

/-- The §8 scenario root recipe: yield 2, difficulty 5, one ingredient A. -/
def recipeC1 : Recipe :=
  { name := "Root", skill := "Smithing", diff := 5,
    ingredients := [("A", infoA)], yield_per := 2, url := "u" }

/-- The §8 scenario world: `Root` has `recipeC1`; `A` has no recipe. -/
def wC1 : World :=
  { find_url := fun n => if n = "Root" then some "u" else none
    scrape := fun u => if u = "u" then some recipeC1 else none
    maxStack := fun _ => 50 }

/-- A world in which no item has a recipe. -/
def wLeaf : World :=
  { find_url := fun _ => none, scrape := fun _ => none, maxStack := fun _ => 50 }

/-- Second ingredient used by the reordering witness. -/
def infoB : IngredientInfo := { qty_per := 2, slug := "b", link := "lb" }

/-- Recipe with two ingredients in the order A, B. -/
def recipeC5a : Recipe :=
  { name := "Root", skill := "S", diff := 5,
    ingredients := [("A", infoA), ("B", infoB)], yield_per := 1, url := "u" }

/-- The same recipe with its ingredient list reversed: B, A. -/
def recipeC5b : Recipe :=
  { name := "Root", skill := "S", diff := 5,
    ingredients := [("B", infoB), ("A", infoA)], yield_per := 1, url := "u" }

/-- World serving `recipeC5a`. -/
def wC5a : World :=
  { find_url := fun n => if n = "Root" then some "u" else none
    scrape := fun u => if u = "u" then some recipeC5a else none
    maxStack := fun _ => 50 }

/-- World serving `recipeC5b`. -/
def wC5b : World :=
  { find_url := fun n => if n = "Root" then some "u" else none
    scrape := fun u => if u = "u" then some recipeC5b else none
    maxStack := fun _ => 50 }

/-- Recipe driving the percentage counterexample: difficulty 10 (Moderate at
effective level 6), yield 1, ingredient A three per craft. -/
def recipeC6 : Recipe :=
  { name := "Root", skill := "S", diff := 10,
    ingredients := [("A", infoA)], yield_per := 1, url := "u" }

/-- World for the percentage counterexample; every stack size is 1, so the
ideal/adjusted slot totals are 3 and 5. -/
def wC6 : World :=
  { find_url := fun n => if n = "Root" then some "u" else none
    scrape := fun u => if u = "u" then some recipeC6 else none
    maxStack := fun _ => 1 }

/-- Ingredient used by the chest-count counterexample: 21 per craft. -/
def infoC7 : IngredientInfo := { qty_per := 21, slug := "a", link := "la" }

/-- Recipe driving the chest-count counterexample: difficulty 13 (Hard at
effective level 6, multiplier 2), yield 1, ingredient A 21 per craft. -/
def recipeC7 : Recipe :=
  { name := "Root", skill := "S", diff := 13,
    ingredients := [("A", infoC7)], yield_per := 1, url := "u" }

/-- World for the chest-count counterexample; stack size 1 everywhere, so the
slot totals are 21 (ideal) and 42 (adjusted). -/
def wC7 : World :=
  { find_url := fun n => if n = "Root" then some "u" else none
    scrape := fun u => if u = "u" then some recipeC7 else none
    maxStack := fun _ => 1 }

/-! ## Basic lemmas about the aggregator -/

/-- Unfolding lemma: an item whose lookup is absent is a leaf at any fuel. -/
theorem compute_raw_leaf (w : World) {name : String}
    (h : lookupRecipe w name = none) (fuel : ℕ) (slug : String) (q : ℚ)
    (level : ℤ) (flag : Bool) :
    compute_raw w fuel name slug q level flag = some [(slug, q)] := by
  cases fuel <;> simp [compute_raw, h]

/-- Unfolding lemma: expanding a node with a recipe.  When the adjustment
flag is off the multiplier is the constant `1`, so the sentinel effective
level `999` disappears from the right-hand side. -/
theorem compute_raw_node (w : World) {name : String} {r : Recipe}
    (h : lookupRecipe w name = some r) (fuel : ℕ) (slug : String) (q : ℚ)
    (level : ℤ) (flag : Bool) :
    compute_raw w (fuel + 1) name slug q level flag =
      sumIngredients (fun n s q' => compute_raw w fuel n s q' level flag)
        ((⌈q / (r.yield_per : ℚ)⌉ : ℚ) *
          (if flag then get_fail_multiplier r.diff (level + 1) else 1))
        r.ingredients [] := by
  cases flag <;> simp [compute_raw, h]

/-- Unfolding lemma: no fuel left at a node that has a recipe. -/
theorem compute_raw_zero (w : World) {name : String} {r : Recipe}
    (h : lookupRecipe w name = some r) (slug : String) (q : ℚ) (level : ℤ)
    (flag : Bool) :
    compute_raw w 0 name slug q level flag = none := by
  simp [compute_raw, h]

/-- Every failure multiplier is at least `1`. -/
theorem one_le_get_fail_multiplier (d l : ℤ) : 1 ≤ get_fail_multiplier d l := by
  simp only [get_fail_multiplier]
  split_ifs <;> norm_num

/-! ## Dictionary lemmas -/

/-- Keys of the empty dict. -/
theorem keys_nil {α : Type} : keys ([] : List (String × α)) = [] := rfl

/-- Keys of a dict cons. -/
theorem keys_cons {α : Type} (k : String) (v : α) (m : List (String × α)) :
    keys ((k, v) :: m) = k :: keys m := rfl

/-- Lookup after `dictSet`. -/
theorem dictGetD_dictSet {α : Type} (m : List (String × α)) (k k' : String)
    (v d : α) :
    dictGetD (dictSet m k v) k' d = if k = k' then v else dictGetD m k' d := by
  induction m with
  | nil => simp [dictSet, dictGetD]
  | cons p rest ih =>
    obtain ⟨k₀, v₀⟩ := p
    by_cases h₀ : k₀ = k
    · subst h₀
      by_cases h : k₀ = k' <;> simp [dictSet, dictGetD, h]
    · by_cases h' : k₀ = k'
      · by_cases h'' : k = k'
        · exact absurd (h'.trans h''.symm) h₀
        · subst h'
          simp [dictSet, dictGetD, h₀, h'']
      · by_cases h'' : k = k'
        · subst h''
          simp [dictSet, dictGetD, h₀, h', ih]
        · simp [dictSet, dictGetD, h₀, h', h'', ih]

/-- Key membership after `dictSet`. -/
theorem mem_keys_dictSet {α : Type} (m : List (String × α)) (k k' : String)
    (v : α) :
    k' ∈ keys (dictSet m k v) ↔ k' = k ∨ k' ∈ keys m := by
  induction m with
  | nil => simp [dictSet, keys_cons, keys_nil]
  | cons p rest ih =>
    obtain ⟨k₀, v₀⟩ := p
    by_cases h₀ : k₀ = k
    · subst h₀
      simp [dictSet, keys_cons, List.mem_cons]
    · simp only [dictSet, if_neg h₀, keys_cons, List.mem_cons, ih]
      tauto

/-- `dictSet` preserves key distinctness. -/
theorem nodup_keys_dictSet {α : Type} (m : List (String × α)) (k : String)
    (v : α) (h : (keys m).Nodup) : (keys (dictSet m k v)).Nodup := by
  induction m with
  | nil => simp [dictSet, keys_cons, keys_nil]
  | cons p rest ih =>
    obtain ⟨k₀, v₀⟩ := p
    rw [keys_cons, List.nodup_cons] at h
    by_cases h₀ : k₀ = k
    · subst h₀
      simpa [dictSet, keys_cons, List.nodup_cons] using h
    · rw [dictSet, if_neg h₀, keys_cons, List.nodup_cons]
      refine ⟨fun hmem => ?_, ih h.2⟩
      rcases (mem_keys_dictSet rest k k₀ v).mp hmem with h' | h'
      · exact h₀ h'
      · exact h.1 h'

/-- Lookup misses fall through to the default. -/
theorem dictGetD_of_not_mem {α : Type} (m : List (String × α)) (k : String)
    (d : α) (h : k ∉ keys m) : dictGetD m k d = d := by
  induction m with
  | nil => simp [dictGetD]
  | cons p rest ih =>
    obtain ⟨k₀, v₀⟩ := p
    rw [keys_cons, List.mem_cons] at h
    push_neg at h
    rw [dictGetD, if_neg (fun h' => h.1 h'.symm)]
    exact ih h.2

/-- Merging adds values pointwise, provided the merged-in dict has distinct
keys (raw mappings always do, see `compute_raw_nodup`). -/
theorem dictGetD_mergeRaw (sub : RawReq) (acc : RawReq) (k : String)
    (h : (keys sub).Nodup) :
    dictGetD (mergeRaw acc sub) k 0 = dictGetD acc k 0 + dictGetD sub k 0 := by
  induction sub generalizing acc with
  | nil => simp [mergeRaw, dictGetD]
  | cons p rest ih =>
    obtain ⟨k₀, v₀⟩ := p
    rw [keys_cons, List.nodup_cons] at h
    rw [mergeRaw, ih _ h.2, dictGetD_dictSet]
    by_cases hk : k₀ = k
    · subst hk
      rw [dictGetD_of_not_mem rest k₀ 0 h.1]
      simp [dictGetD]
    · simp [dictGetD, hk]

/-- Key membership after a merge is the union of the key sets. -/
theorem mem_keys_mergeRaw (sub : RawReq) (acc : RawReq) (k : String) :
    k ∈ keys (mergeRaw acc sub) ↔ k ∈ keys acc ∨ k ∈ keys sub := by
  induction sub generalizing acc with
  | nil => simp [mergeRaw, keys_nil]
  | cons p rest ih =>
    obtain ⟨k₀, v₀⟩ := p
    rw [mergeRaw, ih, mem_keys_dictSet, keys_cons, List.mem_cons]
    tauto

/-- Merging preserves key distinctness of the accumulator. -/
theorem nodup_keys_mergeRaw (sub : RawReq) (acc : RawReq)
    (h : (keys acc).Nodup) : (keys (mergeRaw acc sub)).Nodup := by
  induction sub generalizing acc with
  | nil => simpa [mergeRaw]
  | cons p rest ih =>
    obtain ⟨k₀, v₀⟩ := p
    exact ih _ (nodup_keys_dictSet _ _ _ h)

/-! ## Lemmas about the ingredient loop -/

/-- Node expansion with the adjustment disabled: the multiplier is `1`. -/
theorem compute_raw_node_false (w : World) {name : String} {r : Recipe}
    (h : lookupRecipe w name = some r) (fuel : ℕ) (slug : String) (q : ℚ)
    (level : ℤ) :
    compute_raw w (fuel + 1) name slug q level false =
      sumIngredients (fun n s q' => compute_raw w fuel n s q' level false)
        (⌈q / (r.yield_per : ℚ)⌉ : ℚ) r.ingredients [] := by
  simp [compute_raw, h]

/-- Node expansion with the adjustment enabled: the multiplier is taken at
effective level `level + 1`. -/
theorem compute_raw_node_true (w : World) {name : String} {r : Recipe}
    (h : lookupRecipe w name = some r) (fuel : ℕ) (slug : String) (q : ℚ)
    (level : ℤ) :
    compute_raw w (fuel + 1) name slug q level true =
      sumIngredients (fun n s q' => compute_raw w fuel n s q' level true)
        ((⌈q / (r.yield_per : ℚ)⌉ : ℚ) * get_fail_multiplier r.diff (level + 1))
        r.ingredients [] := by
  simp [compute_raw, h]

/-- The ingredient loop only depends on the recursive expansion function
through its values. -/
theorem sumIngredients_congr {rec₁ rec₂ : String → String → ℚ → Option RawReq}
    (h : ∀ n s q, rec₁ n s q = rec₂ n s q) (c : ℚ)
    (ings : List (String × IngredientInfo)) (acc : RawReq) :
    sumIngredients rec₁ c ings acc = sumIngredients rec₂ c ings acc := by
  induction ings generalizing acc with
  | nil => rfl
  | cons p rest ih =>
    obtain ⟨n₀, i₀⟩ := p
    rw [sumIngredients, sumIngredients, h]
    cases rec₂ n₀ i₀.slug ((i₀.qty_per : ℚ) * c) with
    | none => rfl
    | some sub => exact ih _

/-- The loop result has distinct keys whenever the accumulator does. -/
theorem sumIngredients_nodup {rec : String → String → ℚ → Option RawReq} (c : ℚ)
    (ings : List (String × IngredientInfo)) :
    ∀ acc m, (keys acc).Nodup → sumIngredients rec c ings acc = some m →
      (keys m).Nodup := by
  induction ings with
  | nil =>
    intro acc m h hm
    rw [sumIngredients] at hm
    cases hm
    exact h
  | cons p rest ih =>
    obtain ⟨n₀, i₀⟩ := p
    intro acc m h hm
    rw [sumIngredients] at hm
    cases ho : rec n₀ i₀.slug ((i₀.qty_per : ℚ) * c) with
    | none => rw [ho] at hm; exact Option.noConfusion hm
    | some sub => rw [ho] at hm; exact ih _ _ (nodup_keys_mergeRaw _ _ h) hm

/-- Every raw mapping produced by the aggregator has distinct keys. -/
theorem compute_raw_nodup (w : World) :
    ∀ (fuel : ℕ) (name slug : String) (q : ℚ) (level : ℤ) (flag : Bool) m,
      compute_raw w fuel name slug q level flag = some m → (keys m).Nodup := by
  intro fuel name slug q level flag m hm
  cases fuel with
  | zero =>
    cases h : lookupRecipe w name with
    | none =>
      rw [compute_raw_leaf w h] at hm
      cases hm
      simp [keys_cons, keys_nil]
    | some r =>
      rw [compute_raw_zero w h] at hm
      exact Option.noConfusion hm
  | succ fuel =>
    cases h : lookupRecipe w name with
    | none =>
      rw [compute_raw_leaf w h] at hm
      cases hm
      simp [keys_cons, keys_nil]
    | some r =>
      rw [compute_raw_node w h] at hm
      exact sumIngredients_nodup _ r.ingredients [] m (by simp [keys_nil]) hm

/-! ## C1: the §8 end-to-end scenario -/

/-- C1: for the §8 scenario (root yield 2, one ingredient A with qty-per 3
and difficulty 5, A without recipe, level 5, quantity 10), the ideal run
returns `{a: 15}` and the adjusted run returns `{a: 375/23}`
(= 15/0.92 ≈ 16.304, the unrounded multiplier carried into the ingredient
quantity), at every sufficient fuel; the multiplier used is the Very Easy
value `1/0.92` at effective level 6. -/
theorem c1_end_to_end_scenario :
    ∀ fuel : ℕ,
      compute_raw wC1 (fuel + 1) "Root" "" 10 5 false = some [("a", 15)] ∧
      compute_raw wC1 (fuel + 1) "Root" "" 10 5 true = some [("a", 375 / 23)] ∧
      (375 / 23 : ℚ) = 15 / 0.92 ∧
      get_fail_multiplier recipeC1.diff (5 + 1) = 1 / 0.92 := by
  intro fuel
  have hroot : lookupRecipe wC1 "Root" = some recipeC1 := rfl
  have hleaf : lookupRecipe wC1 "A" = none := rfl
  refine ⟨?_, ?_, by with_unfolding_all decide, by with_unfolding_all decide⟩
  · simp only [compute_raw_node_false wC1 hroot,
      show recipeC1.ingredients = [("A", infoA)] from rfl, sumIngredients,
      compute_raw_leaf wC1 hleaf]
    with_unfolding_all decide
  · simp only [compute_raw_node_true wC1 hroot,
      show recipeC1.ingredients = [("A", infoA)] from rfl, sumIngredients,
      compute_raw_leaf wC1 hleaf]
    with_unfolding_all decide

/-! ## C2: the failure multiplier tiers -/

/-- C2: the failure multiplier is total on `ℤ × ℤ` (it is a Lean function),
depends only on `delta = difficulty - effectiveLevel`, has exactly the four
claimed tiers, and takes the four claimed boundary values. -/
theorem c2_fail_multiplier_tiers :
    ∀ d l : ℤ,
      (∀ d' l', d - l = d' - l' →
        get_fail_multiplier d l = get_fail_multiplier d' l') ∧
      (d - l ≤ 0 → get_fail_multiplier d l = 1 / 0.92) ∧
      (0 < d - l → d - l ≤ 3 → get_fail_multiplier d l = 1 / 0.85) ∧
      (3 < d - l → d - l ≤ 6 → get_fail_multiplier d l = 1 / 0.70) ∧
      (6 < d - l → get_fail_multiplier d l = 1 / 0.50) ∧
      get_fail_multiplier 5 5 = 1 / 0.92 ∧
      get_fail_multiplier 8 5 = 1 / 0.85 ∧
      get_fail_multiplier 11 5 = 1 / 0.70 ∧
      get_fail_multiplier 12 5 = 1 / 0.50 := by
  intro d l
  refine ⟨?_, ?_, ?_, ?_, ?_, ?_, ?_, ?_, ?_⟩
  · intro d' l' h
    simp only [get_fail_multiplier, h]
  · intro h
    simp only [get_fail_multiplier]
    rw [if_pos h]
    norm_num
  · intro h1 h2
    simp only [get_fail_multiplier]
    rw [if_neg (by omega), if_pos h2]
    norm_num
  · intro h1 h2
    simp only [get_fail_multiplier]
    rw [if_neg (by omega), if_neg (by omega), if_pos h2]
    norm_num
  · intro h
    simp only [get_fail_multiplier]
    rw [if_neg (by omega), if_neg (by omega), if_neg (by omega)]
    norm_num
  · with_unfolding_all decide
  · with_unfolding_all decide
  · with_unfolding_all decide
  · with_unfolding_all decide

/-- Witness for C2: each tier hypothesis discharged at a concrete input. -/
theorem c2_witness :
    (get_fail_multiplier 5 5 = 1 / 0.92) ∧
    (get_fail_multiplier 8 5 = 1 / 0.85) ∧
    (get_fail_multiplier 11 5 = 1 / 0.70) ∧
    (get_fail_multiplier 12 5 = 1 / 0.50) ∧
    get_fail_multiplier 7 3 = get_fail_multiplier 9 5 :=
  ⟨(c2_fail_multiplier_tiers 5 5).2.1 (by decide),
   (c2_fail_multiplier_tiers 8 5).2.2.1 (by decide) (by decide),
   (c2_fail_multiplier_tiers 11 5).2.2.2.1 (by decide) (by decide),
   (c2_fail_multiplier_tiers 12 5).2.2.2.2.1 (by decide),
   (c2_fail_multiplier_tiers 7 3).1 9 5 (by decide)⟩

/-! ## C3: absence of a recipe is the base case -/

/-- C3: whenever the recipe lookup is absent — no URL found (including the
falsy empty URL) or the fetch/parse returned absent — `compute_raw` returns
exactly the singleton `{slug: q}` for every slug, quantity, level and
adjustment flag, at every fuel (so the recursion terminates at that node and
no error is produced). -/
theorem c3_no_recipe_is_leaf :
    (∀ (w : World) (name slug : String) (q : ℚ) (level : ℤ) (flag : Bool)
        (fuel : ℕ), lookupRecipe w name = none →
        compute_raw w fuel name slug q level flag = some [(slug, q)]) ∧
    (∀ (w : World) (name : String),
        lookupRecipe w name = none ↔
          w.find_url name = none ∨
            ∃ u, w.find_url name = some u ∧ (u = "" ∨ w.scrape u = none)) := by
  constructor
  · intro w name slug q level flag fuel h
    exact compute_raw_leaf w h fuel slug q level flag
  · intro w name
    unfold lookupRecipe
    cases h : w.find_url name with
    | none => simp
    | some u =>
      by_cases hu : u = "" <;> simp [hu]

/-- Witness for C3 at a concrete world with no recipes. -/
theorem c3_witness :
    lookupRecipe wLeaf "X" = none ∧
    compute_raw wLeaf 0 "X" "x" 7 3 true = some [("x", 7)] :=
  ⟨rfl, c3_no_recipe_is_leaf.1 wLeaf "X" "x" 7 3 true 0 rfl⟩

/-! ## C4: level invariance with the adjustment disabled -/

/-- C4: with the failure adjustment disabled the result of `compute_raw`
does not depend on the level argument at all — the multiplier is the
constant `1` regardless of difficulty. -/
theorem c4_level_invariance :
    ∀ (w : World) (fuel : ℕ) (name slug : String) (q : ℚ) (l₁ l₂ : ℤ),
      compute_raw w fuel name slug q l₁ false =
        compute_raw w fuel name slug q l₂ false := by
  intro w fuel
  induction fuel with
  | zero => intro name slug q l₁ l₂; rfl
  | succ fuel ih =>
    intro name slug q l₁ l₂
    cases h : lookupRecipe w name with
    | none => rw [compute_raw_leaf w h, compute_raw_leaf w h]
    | some r =>
      rw [compute_raw_node_false w h, compute_raw_node_false w h]
      exact sumIngredients_congr (fun n s q' => ih n s q' l₁ l₂) _ _ _

/-! ## C10: the stack-size cache is never mutated -/

/-- The ingredient loop of the breakdown builder returns the cache it was
given, provided every recursive call does. -/
theorem breakdownChildren_cache {w : World}
    {recurse : String → ℤ → List (String × ℕ) → Option (String × List (String × ℕ))}
    (hrec : ∀ n q c r, recurse n q c = some r → r.2 = c) (crafts : ℤ) :
    ∀ ings bd table cache out,
      breakdownChildren w recurse crafts ings bd table cache = some out →
      out.2.2 = cache := by
  intro ings
  induction ings with
  | nil =>
    intro bd table cache out h
    rw [breakdownChildren] at h
    cases h
    rfl
  | cons p rest ih =>
    obtain ⟨n₀, i₀⟩ := p
    intro bd table cache out h
    simp only [breakdownChildren] at h
    cases ho : recurse n₀ ((i₀.qty_per : ℤ) * crafts) cache with
    | none => rw [ho] at h; exact Option.noConfusion h
    | some r0 =>
      obtain ⟨sub_bd, cache'⟩ := r0
      rw [ho] at h
      rw [ih _ _ _ _ h]
      exact hrec _ _ _ _ ho

/-- `build_breakdown` returns the stack-size cache unchanged, at every
recursion depth. -/
theorem build_breakdown_cache (w : World) :
    ∀ (fuel : ℕ) (name : String) (q level : ℤ) cache r,
      build_breakdown w fuel name q level cache = some r → r.2 = cache := by
  intro fuel
  induction fuel with
  | zero =>
    intro name q level cache r h
    cases hl : lookupRecipe w name with
    | none =>
      simp only [build_breakdown, hl] at h
      cases h
      rfl
    | some recipe => simp [build_breakdown, hl] at h
  | succ fuel ih =>
    intro name q level cache r h
    cases hl : lookupRecipe w name with
    | none =>
      simp only [build_breakdown, hl] at h
      cases h
      rfl
    | some recipe =>
      simp only [build_breakdown, hl] at h
      split at h
      · exact Option.noConfusion h
      · rename_i bd table cache' heq
        cases h
        exact breakdownChildren_cache (fun n q' c rr hh => ih n q' level c rr hh)
          _ _ _ _ _ _ heq

/-- C10: `build_breakdown` only reads the stack-size cache passed to it —
whenever a call returns, the cache component of its result is exactly the
mapping that was passed in, for every world, fuel, item, quantity, level and
cache (hence at every recursion depth). -/
theorem c10_cache_never_mutated :
    ∀ (w : World) (fuel : ℕ) (name : String) (q level : ℤ)
      (cache : List (String × ℕ)),
      (build_breakdown w fuel name q level cache).map Prod.snd =
        (build_breakdown w fuel name q level cache).map (fun _ => cache) := by
  intro w fuel name q level cache
  cases hb : build_breakdown w fuel name q level cache with
  | none => rfl
  | some r =>
    simp only [Option.map_some']
    exact congrArg some (build_breakdown_cache w fuel name q level cache r hb)

/-! ## C8: the bounded summary -/

/-- C8: the second component returned by `generate_breakdown` is derived
from the breakdown text alone — it equals `chatSummary` of the breakdown —
and `chatSummary` returns the text itself when it has at most 1900
characters, and its first 1900 characters followed by an ellipsis
otherwise. -/
theorem c8_summary_is_truncated_breakdown :
    (∀ (w : World) (fuel : ℕ) (item : String) (q level : ℤ),
        (generate_breakdown w fuel item q level).map Prod.snd =
          (breakdown_text w fuel item q level).map chatSummary) ∧
    (∀ s : String,
        (pyLen s ≤ 1900 → chatSummary s = s) ∧
        (1900 < pyLen s → chatSummary s = pyTake s 1900 ++ "...")) := by
  constructor
  · intro w fuel item q level
    unfold generate_breakdown breakdown_text
    cases ho : compute_raw w fuel item "" (q : ℚ) level false <;>
      cases ha : compute_raw w fuel item "" (q : ℚ) level true <;>
        simp only [Option.map_none', Option.map_some']
    rename_i orig adj
    cases hb : build_breakdown w fuel item q level (stacks_for w orig adj) with
    | none => simp [hb]
    | some r => simp [hb]
  · intro s
    constructor <;> intro h
    · rw [chatSummary, if_neg (by omega)]
    · rw [chatSummary, if_pos h]

/-- Witness for C8: the first part applied to a concrete successful run, the
second to a short concrete string. -/
theorem c8_witness :
    ((generate_breakdown wC1 2 "Root" 10 5).map Prod.snd =
      (breakdown_text wC1 2 "Root" 10 5).map chatSummary) ∧
    pyLen "ab" ≤ 1900 ∧ chatSummary "ab" = "ab" :=
  ⟨c8_summary_is_truncated_breakdown.1 wC1 2 "Root" 10 5, by decide,
   (c8_summary_is_truncated_breakdown.2 "ab").1 (by decide)⟩

/-! ## Substring lemmas for the document claims -/

/-- Concatenation of strings concatenates the character lists. -/
theorem str_data_append (a b : String) : (a ++ b).data = a.data ++ b.data := by
  obtain ⟨x⟩ := a
  obtain ⟨y⟩ := b
  rfl

/-- String concatenation is associative. -/
theorem str_append_assoc (a b c : String) : (a ++ b) ++ c = a ++ (b ++ c) := by
  obtain ⟨x⟩ := a
  obtain ⟨y⟩ := b
  obtain ⟨z⟩ := c
  show String.mk ((x ++ y) ++ z) = String.mk (x ++ (y ++ z))
  rw [List.append_assoc]

/-- A pattern starts every list it prefixes. -/
theorem startsWithL_append (pat rest : List Char) :
    startsWithL pat (pat ++ rest) = true := by
  induction pat with
  | nil => rfl
  | cons c cs ih => simp [startsWithL, ih]

/-- A pattern occurs in any list it prefixes. -/
theorem hasSubL_self (pat b : List Char) : hasSubL pat (pat ++ b) = true := by
  cases pat with
  | nil => cases b <;> simp [hasSubL, List.isEmpty, startsWithL]
  | cons c cs =>
    rw [List.cons_append, hasSubL]
    simp [startsWithL, startsWithL_append]

/-- Occurrence is preserved by extending on the left. -/
theorem hasSubL_cons (pat : List Char) (d : Char) (s : List Char)
    (h : hasSubL pat s = true) : hasSubL pat (d :: s) = true := by
  rw [hasSubL, h, Bool.or_true]

/-- A pattern occurs in `a ++ (pat ++ b)`. -/
theorem hasSubL_append (pat a b : List Char) :
    hasSubL pat (a ++ (pat ++ b)) = true := by
  induction a with
  | nil => simpa using hasSubL_self pat b
  | cons d rest ih =>
    rw [List.cons_append]
    exact hasSubL_cons _ _ _ ih

/-- Substring containment of an explicitly embedded middle piece. -/
theorem strContains_append (x y z : String) :
    strContains (x ++ (y ++ z)) y = true := by
  show hasSubL y.data (x ++ (y ++ z)).data = true
  rw [str_data_append, str_data_append]
  exact hasSubL_append _ _ _

/-! ## C6: the percentage overhead is truncated, not rounded -/

/-- Counterexample to C6: on the concrete world `wC6` (slot totals 3 ideal /
5 adjusted) the assembler reports `(+66%)` — truncation of 200/3 ≈ 66.67 —
whereas rounding to nearest gives 67, so the claimed
`round((slotsAdjusted/slotsOriginal - 1) * 100)` is violated. -/
theorem c6_counterexample :
    breakdown_slots wC6 2 "Root" 1 5 = some (3, 5) ∧
    (generate_breakdown wC6 2 "Root" 1 5).map
      (fun p => strContains p.1 "(+66%)") = some true ∧
    (generate_breakdown wC6 2 "Root" 1 5).map
      (fun p => strContains p.1 "(+67%)") = some false ∧
    pct_calc 3 5 = 66 ∧
    round (((5 : ℚ) / 3 - 1) * 100) = (67 : ℤ) ∧ (66 : ℤ) ≠ 67 := by
  refine ⟨?_, ?_, ?_, ?_, ?_, by decide⟩ <;> with_unfolding_all decide

/-- C6 amended: the reported percentage is Python `int()` of
`(slotsAdjusted/slotsOriginal - 1) * 100` — truncation toward zero, which
equals the floor whenever `0 < slotsOriginal ≤ slotsAdjusted` — and `0` when
`slotsOriginal = 0`. -/
theorem c6_amended_pct_truncates :
    ∀ s₀ s₁ : ℤ,
      (s₀ = 0 → pct_calc s₀ s₁ = 0) ∧
      (0 < s₀ → s₀ ≤ s₁ →
        pct_calc s₀ s₁ = ⌊((s₁ : ℚ) / (s₀ : ℚ) - 1) * 100⌋) := by
  intro s₀ s₁
  constructor
  · intro h
    simp [pct_calc, h]
  · intro h0 h1
    have h₀Q : (0 : ℚ) < (s₀ : ℚ) := by exact_mod_cast h0
    have hd : (1 : ℚ) ≤ (s₁ : ℚ) / (s₀ : ℚ) :=
      (one_le_div h₀Q).mpr (by exact_mod_cast h1)
    have hpos : (0 : ℚ) ≤ ((s₁ : ℚ) / (s₀ : ℚ) - 1) * 100 := by nlinarith
    rw [pct_calc, if_neg (by omega), truncQ, if_pos hpos]

/-- Witness for the amended C6. -/
theorem c6_amended_witness :
    pct_calc 0 7 = 0 ∧
    pct_calc 3 5 = ⌊(((5 : ℤ) : ℚ) / ((3 : ℤ) : ℚ) - 1) * 100⌋ :=
  ⟨(c6_amended_pct_truncates 0 7).1 rfl,
   (c6_amended_pct_truncates 3 5).2 (by decide) (by decide)⟩

/-! ## C7: the reported chest count comes from the ideal slot total -/

/-- Equation lemma: a successful assembler run in terms of its pieces. -/
theorem generate_breakdown_eq (w : World) (fuel : ℕ) (item : String)
    (q level : ℤ) (orig adj : RawReq) (bd : String) (cache : List (String × ℕ))
    (ho : compute_raw w fuel item "" (q : ℚ) level false = some orig)
    (ha : compute_raw w fuel item "" (q : ℚ) level true = some adj)
    (hb : build_breakdown w fuel item q level (stacks_for w orig adj) =
      some (bd, cache)) :
    generate_breakdown w fuel item q level =
      some (mdDocument item q level bd
              (finalTable (stacks_for w orig adj) orig adj
                (slots_of (stacks_for w orig adj) orig)
                (slots_of (stacks_for w orig adj) adj))
              (slots_of (stacks_for w orig adj) orig),
            chatSummary bd) := by
  unfold generate_breakdown
  rw [ho, ha]
  simp [hb]

/-- Inversion lemma: a successful `breakdown_slots` run pins down the two
aggregator results and both slot totals. -/
theorem breakdown_slots_inv (w : World) (fuel : ℕ) (item : String)
    (q level : ℤ) (s₀ s₁ : ℤ)
    (hs : breakdown_slots w fuel item q level = some (s₀, s₁)) :
    ∃ orig adj,
      compute_raw w fuel item "" (q : ℚ) level false = some orig ∧
      compute_raw w fuel item "" (q : ℚ) level true = some adj ∧
      s₀ = slots_of (stacks_for w orig adj) orig ∧
      s₁ = slots_of (stacks_for w orig adj) adj := by
  unfold breakdown_slots at hs
  cases ho : compute_raw w fuel item "" (q : ℚ) level false <;>
    cases ha : compute_raw w fuel item "" (q : ℚ) level true <;>
      rw [ho, ha] at hs
  · exact Option.noConfusion hs
  · exact Option.noConfusion hs
  · exact Option.noConfusion hs
  · rename_i orig adj
    have h' := Option.some.inj hs
    exact ⟨orig, adj, rfl, rfl, (congrArg Prod.fst h').symm,
      (congrArg Prod.snd h').symm⟩

/-- Inversion lemma: when both aggregator runs succeed and the assembler
returns, the breakdown builder returned as well. -/
theorem generate_isSome_inv (w : World) (fuel : ℕ) (item : String)
    (q level : ℤ) (orig adj : RawReq)
    (ho : compute_raw w fuel item "" (q : ℚ) level false = some orig)
    (ha : compute_raw w fuel item "" (q : ℚ) level true = some adj)
    (hg : (generate_breakdown w fuel item q level).isSome = true) :
    ∃ bd cache,
      build_breakdown w fuel item q level (stacks_for w orig adj) =
        some (bd, cache) := by
  unfold generate_breakdown at hg
  rw [ho, ha] at hg
  cases hb : build_breakdown w fuel item q level (stacks_for w orig adj) with
  | none => simp [hb] at hg
  | some r =>
    obtain ⟨bd, cache⟩ := r
    exact ⟨bd, cache, rfl⟩

/-- Counterexample to C7: on the concrete world `wC7` the slot totals are 21
(ideal) and 42 (adjusted); `ceil(42/20) = 3`, yet the document nowhere says
`~3 Chests` — it says `~2 Chests`, i.e. `ceil(21/20)` from the ideal total.
The adjusted chest count of the claim is computed (line 202) but unused. -/
theorem c7_counterexample :
    breakdown_slots wC7 2 "Root" 1 5 = some (21, 42) ∧
    chests_adj_calc 42 = 3 ∧
    (generate_breakdown wC7 2 "Root" 1 5).map
      (fun p => strContains p.1 "~3 Chests") = some false ∧
    (generate_breakdown wC7 2 "Root" 1 5).map
      (fun p => strContains p.1 "~2 Chests") = some true ∧
    (⌈(21 : ℚ) / 20⌉ : ℤ) = 2 := by
  refine ⟨?_, ?_, ?_, ?_, ?_⟩ <;> with_unfolding_all decide

/-- C7 amended: the chest figure the assembled document reports is derived
from the ideal traversal's slot total — the document always contains
`~{ceil(slotsOriginal / 20)} Chests` (`mdChests s₀`). -/
theorem c7_amended_chests_from_ideal :
    ∀ (w : World) (fuel : ℕ) (item : String) (q level : ℤ) (s₀ s₁ : ℤ),
      breakdown_slots w fuel item q level = some (s₀, s₁) →
      (generate_breakdown w fuel item q level).isSome = true →
      (generate_breakdown w fuel item q level).map
        (fun p => strContains p.1 (mdChests s₀)) = some true := by
  intro w fuel item q level s₀ s₁ hs hg
  obtain ⟨orig, adj, ho, ha, hs₀, _⟩ :=
    breakdown_slots_inv w fuel item q level s₀ s₁ hs
  obtain ⟨bd, cache, hb⟩ :=
    generate_isSome_inv w fuel item q level orig adj ho ha hg
  rw [generate_breakdown_eq w fuel item q level orig adj bd cache ho ha hb,
    Option.map_some']
  refine congrArg some ?_
  subst hs₀
  rw [mdDocument, str_append_assoc]
  exact strContains_append _ _ _

/-! ## C5: reordering ingredient lists -/

/-- `EquivReq` is reflexive. -/
theorem equivReq_refl (m : RawReq) : EquivReq m m :=
  ⟨fun _ => rfl, fun _ => Iff.rfl⟩

/-- `EquivReq` is transitive. -/
theorem equivReq_trans {a b c : RawReq} (h₁ : EquivReq a b)
    (h₂ : EquivReq b c) : EquivReq a c :=
  ⟨fun k => (h₁.1 k).trans (h₂.1 k), fun k => (h₁.2 k).trans (h₂.2 k)⟩

/-- `OptEquivReq` is transitive. -/
theorem optEquivReq_trans :
    ∀ {a b c : Option RawReq}, OptEquivReq a b → OptEquivReq b c →
      OptEquivReq a c := by
  intro a b c h₁ h₂
  cases a <;> cases b <;> cases c <;>
    first
      | trivial
      | exact h₁.elim
      | exact h₂.elim
      | exact equivReq_trans h₁ h₂

/-- Merging equivalent dicts yields equivalent dicts. -/
theorem mergeRaw_equiv {a₁ a₂ s₁ s₂ : RawReq} (hn₁ : (keys s₁).Nodup)
    (hn₂ : (keys s₂).Nodup) (ha : EquivReq a₁ a₂) (hs : EquivReq s₁ s₂) :
    EquivReq (mergeRaw a₁ s₁) (mergeRaw a₂ s₂) := by
  constructor
  · intro k
    rw [dictGetD_mergeRaw _ _ _ hn₁, dictGetD_mergeRaw _ _ _ hn₂, ha.1 k,
      hs.1 k]
  · intro k
    rw [mem_keys_mergeRaw, mem_keys_mergeRaw]
    exact or_congr (ha.2 k) (hs.2 k)

/-- The ingredient loop maps equivalent accumulators to equivalent
results. -/
theorem sumIngredients_acc_equiv {rec : String → String → ℚ → Option RawReq}
    (hnodup : ∀ n s q m, rec n s q = some m → (keys m).Nodup) (c : ℚ) :
    ∀ (ings : List (String × IngredientInfo)) acc₁ acc₂, EquivReq acc₁ acc₂ →
      OptEquivReq (sumIngredients rec c ings acc₁)
        (sumIngredients rec c ings acc₂) := by
  intro ings
  induction ings with
  | nil => intro acc₁ acc₂ h; exact h
  | cons p rest ih =>
    obtain ⟨n₀, i₀⟩ := p
    intro acc₁ acc₂ h
    rw [sumIngredients, sumIngredients]
    cases ho : rec n₀ i₀.slug ((i₀.qty_per : ℚ) * c) with
    | none => trivial
    | some sub =>
      exact ih _ _ (mergeRaw_equiv (hnodup _ _ _ _ ho) (hnodup _ _ _ _ ho) h
        (equivReq_refl sub))

/-- Permuting the ingredient list yields an equivalent loop result. -/
theorem sumIngredients_perm {rec : String → String → ℚ → Option RawReq}
    (hnodup : ∀ n s q m, rec n s q = some m → (keys m).Nodup) (c : ℚ)
    {ings₁ ings₂ : List (String × IngredientInfo)} (hp : ings₁.Perm ings₂) :
    ∀ acc₁ acc₂, EquivReq acc₁ acc₂ →
      OptEquivReq (sumIngredients rec c ings₁ acc₁)
        (sumIngredients rec c ings₂ acc₂) := by
  induction hp with
  | nil => intro acc₁ acc₂ h; exact h
  | cons x _ ih =>
    obtain ⟨n₀, i₀⟩ := x
    intro acc₁ acc₂ h
    rw [sumIngredients, sumIngredients]
    cases ho : rec n₀ i₀.slug ((i₀.qty_per : ℚ) * c) with
    | none => trivial
    | some sub =>
      exact ih _ _ (mergeRaw_equiv (hnodup _ _ _ _ ho) (hnodup _ _ _ _ ho) h
        (equivReq_refl sub))
  | swap x y l =>
    obtain ⟨n₁, i₁⟩ := x
    obtain ⟨n₂, i₂⟩ := y
    intro acc₁ acc₂ h
    cases hy : rec n₂ i₂.slug ((i₂.qty_per : ℚ) * c) <;>
      cases hx : rec n₁ i₁.slug ((i₁.qty_per : ℚ) * c) <;>
        simp only [sumIngredients, hy, hx]
    · trivial
    · trivial
    · trivial
    · rename_i sy sx
      refine sumIngredients_acc_equiv hnodup c l _ _ ?_
      have hny := hnodup _ _ _ _ hy
      have hnx := hnodup _ _ _ _ hx
      constructor
      · intro k
        rw [dictGetD_mergeRaw _ _ _ hnx, dictGetD_mergeRaw _ _ _ hny,
          dictGetD_mergeRaw _ _ _ hny, dictGetD_mergeRaw _ _ _ hnx, h.1 k]
        ring
      · intro k
        rw [mem_keys_mergeRaw, mem_keys_mergeRaw, mem_keys_mergeRaw,
          mem_keys_mergeRaw]
        have := h.2 k
        tauto
  | trans _ _ ih₁ ih₂ =>
    intro acc₁ acc₂ h
    exact optEquivReq_trans (ih₁ acc₁ acc₁ (equivReq_refl acc₁))
      (ih₂ acc₁ acc₂ h)

/-- The ingredient loop maps pointwise-equivalent expansion functions to
equivalent results. -/
theorem sumIngredients_rec_equiv {rec₁ rec₂ : String → String → ℚ → Option RawReq}
    (hnod₁ : ∀ n s q m, rec₁ n s q = some m → (keys m).Nodup)
    (hnod₂ : ∀ n s q m, rec₂ n s q = some m → (keys m).Nodup)
    (hrec : ∀ n s q, OptEquivReq (rec₁ n s q) (rec₂ n s q)) (c : ℚ) :
    ∀ (ings : List (String × IngredientInfo)) acc₁ acc₂, EquivReq acc₁ acc₂ →
      OptEquivReq (sumIngredients rec₁ c ings acc₁)
        (sumIngredients rec₂ c ings acc₂) := by
  intro ings
  induction ings with
  | nil => intro acc₁ acc₂ h; exact h
  | cons p rest ih =>
    obtain ⟨n₀, i₀⟩ := p
    intro acc₁ acc₂ h
    have hr := hrec n₀ i₀.slug ((i₀.qty_per : ℚ) * c)
    rw [sumIngredients, sumIngredients]
    cases h₁ : rec₁ n₀ i₀.slug ((i₀.qty_per : ℚ) * c) <;>
      cases h₂ : rec₂ n₀ i₀.slug ((i₀.qty_per : ℚ) * c) <;>
        rw [h₁, h₂] at hr
    · trivial
    · exact hr.elim
    · exact hr.elim
    · exact ih _ _ (mergeRaw_equiv (hnod₁ _ _ _ _ h₁) (hnod₂ _ _ _ _ h₂) h hr)

/-- Permutation-related worlds have permutation-related lookups. -/
theorem lookupRecipe_worldPerm {w₁ w₂ : World} (hw : WorldPerm w₁ w₂) :
    ∀ name,
      match lookupRecipe w₁ name, lookupRecipe w₂ name with
      | none, none => True
      | some r₁, some r₂ => RecipePerm r₁ r₂
      | _, _ => False := by
  intro name
  obtain ⟨hf, hs⟩ := hw
  unfold lookupRecipe
  rw [hf]
  cases w₂.find_url name with
  | none => trivial
  | some u =>
    by_cases hu : u = ""
    · simp only [if_pos hu]
    · simp only [if_neg hu]
      exact hs u

/-- C5: reordering the ingredient list of any recipe in the tree does not
change the raw-requirement mapping computed by `compute_raw` — for
permutation-related worlds, the results at equal fuel are mappings with the
same per-slug values and the same key sets (and fuel exhaustion coincides),
for both adjustment settings. -/
theorem c5_reordering_preserves_raw :
    ∀ w₁ w₂ : World, WorldPerm w₁ w₂ →
      ∀ (fuel : ℕ) (name slug : String) (q : ℚ) (level : ℤ) (flag : Bool),
        OptEquivReq (compute_raw w₁ fuel name slug q level flag)
          (compute_raw w₂ fuel name slug q level flag) := by
  intro w₁ w₂ hw fuel
  induction fuel with
  | zero =>
    intro name slug q level flag
    have h := lookupRecipe_worldPerm hw name
    cases hl₁ : lookupRecipe w₁ name <;> cases hl₂ : lookupRecipe w₂ name <;>
      rw [hl₁, hl₂] at h
    · rw [compute_raw_leaf w₁ hl₁, compute_raw_leaf w₂ hl₂]
      exact equivReq_refl _
    · exact h.elim
    · exact h.elim
    · rw [compute_raw_zero w₁ hl₁, compute_raw_zero w₂ hl₂]
      trivial
  | succ fuel ih =>
    intro name slug q level flag
    have h := lookupRecipe_worldPerm hw name
    cases hl₁ : lookupRecipe w₁ name <;> cases hl₂ : lookupRecipe w₂ name <;>
      rw [hl₁, hl₂] at h
    · rw [compute_raw_leaf w₁ hl₁, compute_raw_leaf w₂ hl₂]
      exact equivReq_refl _
    · exact h.elim
    · exact h.elim
    · rename_i r₁ r₂
      rw [compute_raw_node w₁ hl₁, compute_raw_node w₂ hl₂]
      obtain ⟨_, _, hdiff, hyield, _, hperm⟩ := h
      rw [hdiff, hyield]
      exact optEquivReq_trans
        (sumIngredients_perm
          (fun n s q' m hm => compute_raw_nodup w₁ fuel n s q' level flag m hm)
          _ hperm [] [] (equivReq_refl []))
        (sumIngredients_rec_equiv
          (fun n s q' m hm => compute_raw_nodup w₁ fuel n s q' level flag m hm)
          (fun n s q' m hm => compute_raw_nodup w₂ fuel n s q' level flag m hm)
          (fun n s q' => ih n s q' level flag) _ r₂.ingredients [] []
          (equivReq_refl []))

/-- Witness for C5: the two concrete worlds `wC5a`, `wC5b` differ exactly by
swapping the two ingredients of the root recipe. -/
theorem c5_witness :
    WorldPerm wC5a wC5b ∧
    OptEquivReq (compute_raw wC5a 2 "Root" "" 10 5 true)
      (compute_raw wC5b 2 "Root" "" 10 5 true) := by
  have hw : WorldPerm wC5a wC5b := by
    refine ⟨rfl, fun url => ?_⟩
    show match (if url = "u" then some recipeC5a else none),
        (if url = "u" then some recipeC5b else none) with
      | none, none => True
      | some r₁, some r₂ => RecipePerm r₁ r₂
      | _, _ => False
    by_cases hu : url = "u"
    · simp only [if_pos hu]
      exact ⟨rfl, rfl, rfl, rfl, rfl, List.Perm.swap ("B", infoB) ("A", infoA) []⟩
    · simp only [if_neg hu]
  exact ⟨hw, c5_reordering_preserves_raw wC5a wC5b hw 2 "Root" "" 10 5 true⟩

/-! ## C9: the adjusted totals dominate the ideal totals -/

/-- Merging dominated dicts yields dominated dicts. -/
theorem mergeRaw_le {a₁ a₂ s₁ s₂ : RawReq} (hn₁ : (keys s₁).Nodup)
    (hn₂ : (keys s₂).Nodup) (ha : LeReq a₁ a₂) (hs : LeReq s₁ s₂) :
    LeReq (mergeRaw a₁ s₁) (mergeRaw a₂ s₂) := by
  constructor
  · intro k
    rw [mem_keys_mergeRaw, mem_keys_mergeRaw]
    exact or_congr (ha.1 k) (hs.1 k)
  · intro k
    rw [dictGetD_mergeRaw _ _ _ hn₁, dictGetD_mergeRaw _ _ _ hn₂]
    exact add_le_add (ha.2 k) (hs.2 k)

/-- The ingredient loop preserves domination: if the ideal expansion of each
child is dominated by its adjusted expansion at any larger positive quantity,
and the ideal crafts count is positive and bounded by the adjusted one, the
loop results are dominated. -/
theorem sumIngredients_le {rec₁ rec₂ : String → String → ℚ → Option RawReq}
    (hnod₁ : ∀ n s q m, rec₁ n s q = some m → (keys m).Nodup)
    (hnod₂ : ∀ n s q m, rec₂ n s q = some m → (keys m).Nodup)
    (hchild : ∀ n s (q₁ q₂ : ℚ), 0 < q₁ → q₁ ≤ q₂ → ∀ m₁ m₂,
      rec₁ n s q₁ = some m₁ → rec₂ n s q₂ = some m₂ → LeReq m₁ m₂)
    {c₁ c₂ : ℚ} (hc₀ : 0 < c₁) (hc : c₁ ≤ c₂) :
    ∀ (ings : List (String × IngredientInfo)),
      (∀ p ∈ ings, 1 ≤ p.2.qty_per) →
      ∀ acc₁ acc₂, LeReq acc₁ acc₂ →
      ∀ m₁ m₂, sumIngredients rec₁ c₁ ings acc₁ = some m₁ →
        sumIngredients rec₂ c₂ ings acc₂ = some m₂ → LeReq m₁ m₂ := by
  intro ings
  induction ings with
  | nil =>
    intro _ acc₁ acc₂ h m₁ m₂ h₁ h₂
    rw [sumIngredients] at h₁ h₂
    cases h₁
    cases h₂
    exact h
  | cons p rest ih =>
    obtain ⟨n₀, i₀⟩ := p
    intro hq acc₁ acc₂ h m₁ m₂ h₁ h₂
    rw [sumIngredients] at h₁ h₂
    have hq₀ : 1 ≤ i₀.qty_per := hq _ (List.mem_cons_self _ _)
    have hq₀Q : (1 : ℚ) ≤ (i₀.qty_per : ℚ) := by exact_mod_cast hq₀
    have hqpos : (0 : ℚ) < (i₀.qty_per : ℚ) * c₁ :=
      mul_pos (lt_of_lt_of_le one_pos hq₀Q) hc₀
    have hle : (i₀.qty_per : ℚ) * c₁ ≤ (i₀.qty_per : ℚ) * c₂ :=
      mul_le_mul_of_nonneg_left hc (le_trans zero_le_one hq₀Q)
    cases o₁ : rec₁ n₀ i₀.slug ((i₀.qty_per : ℚ) * c₁) with
    | none => rw [o₁] at h₁; exact Option.noConfusion h₁
    | some sub₁ =>
      cases o₂ : rec₂ n₀ i₀.slug ((i₀.qty_per : ℚ) * c₂) with
      | none => rw [o₂] at h₂; exact Option.noConfusion h₂
      | some sub₂ =>
        rw [o₁] at h₁
        rw [o₂] at h₂
        exact ih (fun p hp => hq p (List.mem_cons_of_mem _ hp)) _ _
          (mergeRaw_le (hnod₁ _ _ _ _ o₁) (hnod₂ _ _ _ _ o₂) h
            (hchild _ _ _ _ hqpos hle _ _ o₁ o₂)) m₁ m₂ h₁ h₂

/-- A recipe served by a world satisfying the §3 invariants has positive
yield and positive per-craft quantities. -/
theorem lookupRecipe_inv {w : World} (hw : EnvInv w) {name : String}
    {r : Recipe} (h : lookupRecipe w name = some r) :
    1 ≤ r.yield_per ∧ ∀ p ∈ r.ingredients, 1 ≤ p.2.qty_per := by
  unfold lookupRecipe at h
  cases hf : w.find_url name with
  | none => rw [hf] at h; exact Option.noConfusion h
  | some u =>
    rw [hf] at h
    by_cases hu : u = ""
    · simp [hu] at h
    · simp only [hu, if_false, ite_false] at h
      exact hw u r h

/-- Generalized domination: the ideal run at a positive quantity is
dominated by the adjusted run at any quantity at least as large. -/
theorem compute_raw_le {w : World} (hw : EnvInv w) :
    ∀ (fuel : ℕ) (name slug : String) (level : ℤ) (q₁ q₂ : ℚ),
      0 < q₁ → q₁ ≤ q₂ → ∀ m₁ m₂,
        compute_raw w fuel name slug q₁ level false = some m₁ →
        compute_raw w fuel name slug q₂ level true = some m₂ →
        LeReq m₁ m₂ := by
  intro fuel
  induction fuel with
  | zero =>
    intro name slug level q₁ q₂ hq₀ hq m₁ m₂ h₁ h₂
    cases hl : lookupRecipe w name with
    | none =>
      rw [compute_raw_leaf w hl] at h₁ h₂
      cases h₁
      cases h₂
      refine ⟨fun k => Iff.rfl, fun k => ?_⟩
      by_cases hk : slug = k <;> simp [dictGetD, hk, le_of_lt, hq]
    | some r =>
      rw [compute_raw_zero w hl] at h₁
      exact Option.noConfusion h₁
  | succ fuel ih =>
    intro name slug level q₁ q₂ hq₀ hq m₁ m₂ h₁ h₂
    cases hl : lookupRecipe w name with
    | none =>
      rw [compute_raw_leaf w hl] at h₁ h₂
      cases h₁
      cases h₂
      refine ⟨fun k => Iff.rfl, fun k => ?_⟩
      by_cases hk : slug = k <;> simp [dictGetD, hk, le_of_lt, hq]
    | some r =>
      rw [compute_raw_node_false w hl] at h₁
      rw [compute_raw_node_true w hl] at h₂
      obtain ⟨hy, hqper⟩ := lookupRecipe_inv hw hl
      have hyQ : (0 : ℚ) < (r.yield_per : ℚ) := by
        have : 0 < r.yield_per := hy
        exact_mod_cast this
      have hceil₁ : 0 < ⌈q₁ / (r.yield_per : ℚ)⌉ :=
        Int.ceil_pos.mpr (div_pos hq₀ hyQ)
      have hc₀ : (0 : ℚ) < (⌈q₁ / (r.yield_per : ℚ)⌉ : ℚ) := by
        exact_mod_cast hceil₁
      have hmono : ⌈q₁ / (r.yield_per : ℚ)⌉ ≤ ⌈q₂ / (r.yield_per : ℚ)⌉ :=
        Int.ceil_le_ceil ((div_le_div_iff_of_pos_right hyQ).mpr hq)
      have hmonoQ : (⌈q₁ / (r.yield_per : ℚ)⌉ : ℚ) ≤
          (⌈q₂ / (r.yield_per : ℚ)⌉ : ℚ) := by exact_mod_cast hmono
      have hc : (⌈q₁ / (r.yield_per : ℚ)⌉ : ℚ) ≤
          (⌈q₂ / (r.yield_per : ℚ)⌉ : ℚ) *
            get_fail_multiplier r.diff (level + 1) :=
        hmonoQ.trans (le_mul_of_one_le_right (hc₀.le.trans hmonoQ)
          (one_le_get_fail_multiplier r.diff (level + 1)))
      exact sumIngredients_le
        (fun n s q' m' hm => compute_raw_nodup w fuel n s q' level false m' hm)
        (fun n s q' m' hm => compute_raw_nodup w fuel n s q' level true m' hm)
        (fun n s p₁ p₂ hp₀ hp m₁' m₂' o₁ o₂ =>
          ih n s level p₁ p₂ hp₀ hp m₁' m₂' o₁ o₂)
        hc₀ hc r.ingredients hqper [] []
        ⟨fun _ => Iff.rfl, fun _ => le_refl _⟩ m₁ m₂ h₁ h₂

/-- C9: under the §3 invariants and for positive requested quantity, a
successful adjusted run has the same key set as the ideal run at equal fuel,
and dominates it pointwise. -/
theorem c9_adjusted_dominates_ideal :
    ∀ (w : World) (fuel : ℕ) (name slug : String) (q : ℚ) (level : ℤ) m₁ m₂,
      EnvInv w → 0 < q →
      compute_raw w fuel name slug q level false = some m₁ →
      compute_raw w fuel name slug q level true = some m₂ →
      (∀ k, k ∈ keys m₁ ↔ k ∈ keys m₂) ∧
      (∀ k, dictGetD m₁ k 0 ≤ dictGetD m₂ k 0) := by
  intro w fuel name slug q level m₁ m₂ hw hq h₁ h₂
  exact compute_raw_le hw fuel name slug level q q hq le_rfl m₁ m₂ h₁ h₂

/-- Witness for C9 at the §8 scenario world. -/
theorem c9_witness :
    EnvInv wC1 ∧ (0 : ℚ) < 10 ∧
    ((∀ k, k ∈ keys [("a", (15 : ℚ))] ↔ k ∈ keys [("a", (375 / 23 : ℚ))]) ∧
     (∀ k, dictGetD [("a", (15 : ℚ))] k 0 ≤
        dictGetD [("a", (375 / 23 : ℚ))] k 0)) := by
  have hw : EnvInv wC1 := by
    intro url r h
    by_cases hu : url = "u"
    · have h' : some recipeC1 = some r := by
        rw [show wC1.scrape url = (if url = "u" then some recipeC1 else none)
          from rfl, if_pos hu] at h
        exact h
      have hr : r = recipeC1 := (Option.some.inj h').symm
      subst hr
      exact ⟨by decide, by decide⟩
    · rw [show wC1.scrape url = (if url = "u" then some recipeC1 else none)
        from rfl, if_neg hu] at h
      exact Option.noConfusion h
  refine ⟨hw, by norm_num, ?_⟩
  exact c9_adjusted_dominates_ideal wC1 2 "Root" "" 10 5 _ _ hw (by norm_num)
    (by with_unfolding_all decide) (by with_unfolding_all decide)

/-- Witness for the amended C7 at the concrete world `wC7`. -/
theorem c7_amended_witness :
    breakdown_slots wC7 2 "Root" 1 5 = some (21, 42) ∧
    (generate_breakdown wC7 2 "Root" 1 5).isSome = true ∧
    (generate_breakdown wC7 2 "Root" 1 5).map
      (fun p => strContains p.1 (mdChests 21)) = some true :=
  ⟨by with_unfolding_all decide, by with_unfolding_all decide,
   c7_amended_chests_from_ideal wC7 2 "Root" 1 5 21 42
     (by with_unfolding_all decide) (by with_unfolding_all decide)⟩
